import Mathlib

/-!
sql-benchmark: the benchmark suite of `framework/suite.go`

A shallow embedding of `framework/suite.go` and the properties of its
registration functions, of `benchmark.run`, of `BenchmarkSuite.Run` and of
`Result.QueriesPerSecond`.

Modelling conventions.

* The outside world (databases, clock, heap) is a state of an arbitrary type `σ`,
  threaded through every effectful call.  The collaborators `sql.Open`,
  `(*sql.DB).Ping`, `runtime.GC`, `time.Now` and `time.Duration.String` are the
  fields of an `Externals σ` record; a benchmark function is an arbitrary
  function of the connection, the iteration count and the world.
* Every effect a function performs is recorded, in program order, as an `Event`:
  one `println` per call of `fmt.Println` (carrying the operands of the call),
  `gc`, `now t` for a clock reading and `call` for an invocation of a benchmark
  function with its arguments and its answer.
* The text a run writes is `output`: every call of `fmt.Println` writes its
  operands in their default formats, separated by single spaces, and a newline.
  The lines of that text are counted by its newline characters, so that a call
  is one line exactly when none of its operands contains a newline.
* Go's `int` and `int64` are `Int`; no arithmetic of the file can overflow
  except `Time.Sub`, which saturates as `time.Time.Sub` does.
* `float64` is the type `F64` below: IEEE-754 binary64 values with the
  round-to-nearest-even arithmetic the Go toolchain generates.
-/

namespace SqlBenchmark

/-! ## float64 -/

/-- A `float64` value: a NaN, a signed infinity, or a signed magnitude `mag ≥ 0`
(`fin s 0` is the signed zero). -/
inductive F64 where
  | nan : F64
  | inf (neg : Bool) : F64
  | fin (neg : Bool) (mag : ℚ) : F64
  deriving DecidableEq

namespace F64

/-- Round a rational to an integer, ties to even. -/
def roundHalfEven (x : ℚ) : Int :=
  if x - ⌊x⌋ < 1 / 2 then ⌊x⌋
  else if 1 / 2 < x - ⌊x⌋ then ⌊x⌋ + 1
  else if ⌊x⌋ % 2 = 0 then ⌊x⌋ else ⌊x⌋ + 1

/-- The spacing of binary64 numbers around the magnitude `a`: `2 ^ (e - 52)` for
`2 ^ e ≤ a < 2 ^ (e + 1)`, the exponent being at least `-1022` (subnormals). -/
def ulp (a : ℚ) : ℚ := (2 : ℚ) ^ (max (Int.log 2 a) (-1022) - 52)

/-- Round the magnitude `a ≥ 0` to the nearest binary64 magnitude, ties to even;
`none` is overflow. -/
def roundMag (a : ℚ) : Option ℚ :=
  if (2 : ℚ) ^ (1024 : ℕ) ≤ (roundHalfEven (a / ulp a) : ℚ) * ulp a then none
  else some ((roundHalfEven (a / ulp a) : ℚ) * ulp a)

/-- The binary64 value nearest to the real number of sign `neg` and magnitude `a`. -/
def round (neg : Bool) (a : ℚ) : F64 :=
  match roundMag a with
  | none => inf neg
  | some m => fin neg m

/-- The binary64 value nearest to the rational `q` (a zero result of a non-zero
`q` keeps the sign of `q`). -/
def ofRat (q : ℚ) : F64 := round (decide (q < 0)) |q|

/-- The conversion `float64(n)` of an integer. -/
def ofInt (n : Int) : F64 := ofRat (n : ℚ)

/-- The real number a finite value stands for. -/
def signed (neg : Bool) (a : ℚ) : ℚ := if neg then -a else a

/-- The sum `x + y` of IEEE-754, rounding to nearest even. -/
def add : F64 → F64 → F64
  | nan, _ => nan
  | inf _, nan => nan
  | inf s, inf t => if s = t then inf s else nan
  | inf s, fin _ _ => inf s
  | fin _ _, nan => nan
  | fin _ _, inf t => inf t
  | fin s a, fin t b =>
    if signed s a + signed t b = 0 then fin (s && t) 0
    else ofRat (signed s a + signed t b)

/-- The quotient `x / y` of IEEE-754, rounding to nearest even: a division by a
zero does not fault, it yields a NaN or an infinity. -/
def div : F64 → F64 → F64
  | nan, _ => nan
  | inf _, nan => nan
  | inf _, inf _ => nan
  | inf s, fin t _ => inf (xor s t)
  | fin _ _, nan => nan
  | fin s _, inf t => fin (xor s t) 0
  | fin s a, fin t b =>
    if b = 0 then (if a = 0 then nan else inf (xor s t))
    else round (xor s t) (a / b)

end F64

/-! ## time -/

/-- A `time.Duration`: a count of nanoseconds (an `int64`). -/
abbrev Duration := Int

/-- The constant `time.Second`. -/
def Second : Duration := 1000000000

/-- The least `time.Duration`. -/
def minDuration : Duration := -(2 ^ 63)

/-- The greatest `time.Duration`. -/
def maxDuration : Duration := 2 ^ 63 - 1

/-- A `time.Time`: the reading of the clock, in nanoseconds. -/
structure Time where
  nanos : Int
  deriving DecidableEq

/-- The difference `t.Sub(u)`, saturating at the least and greatest duration. -/
def Time.Sub (t u : Time) : Duration :=
  if t.nanos - u.nanos < minDuration then minDuration
  else if maxDuration < t.nanos - u.nanos then maxDuration
  else t.nanos - u.nanos

/-- The method `time.Duration.Seconds`:
`float64(d / Second) + float64(d % Second) / 1e9`, the division and the remainder
of `int64` truncating towards zero. -/
def Duration.Seconds (d : Duration) : F64 :=
  F64.add (F64.ofInt (Int.tdiv d Second))
    (F64.div (F64.ofInt (Int.tmod d Second)) (F64.fin false 1000000000))

/-! ## the data of `suite.go` -/

/-- A `*sql.DB`: the identity of an opened connection. -/
structure DB where
  handle : Nat
  deriving DecidableEq

/-- A Go `error` value is modelled by its message, `none` being `nil`. -/
abbrev GoError := Option String

/-- The type `driver`. -/
structure driver where
  name : String
  db : DB
  deriving DecidableEq

/-- The type `Result`. -/
structure Result where
  Err : GoError
  Queries : Int
  Duration : Duration
  deriving DecidableEq

/-- The method `Result.QueriesPerSecond`:
`float64(res.Queries) / res.Duration.Seconds()`. -/
def Result.QueriesPerSecond (res : Result) : F64 :=
  F64.div (F64.ofInt res.Queries) (Duration.Seconds res.Duration)

/-- A benchmark function `func(*sql.DB, int) error`, acting on the world. -/
abbrev BenchFn (σ : Type) := DB → Int → σ → GoError × σ

/-- The type `benchmark`. -/
structure benchmark (σ : Type) where
  name : String
  n : Int
  bm : BenchFn σ

/-- The type `BenchmarkSuite`. -/
structure BenchmarkSuite (σ : Type) where
  drivers : List driver
  benchmarks : List (benchmark σ)

/-- The collaborators of the suite. -/
structure Externals (σ : Type) where
  /-- The function `sql.Open(drv, dsn)`. -/
  sqlOpen : String → String → σ → Except String DB × σ
  /-- The method `db.Ping()`. -/
  ping : DB → σ → GoError × σ
  /-- The function `runtime.GC()`. -/
  gc : σ → σ
  /-- The function `time.Now()`. -/
  now : σ → Time × σ
  /-- The method `time.Duration.String`. -/
  durationString : Duration → String

/-- An operand of `fmt.Println`. -/
inductive Operand where
  | str (s : String) : Operand
  | int (n : Int) : Operand
  | float (x : F64) : Operand
  deriving DecidableEq

/-- An effect, as observed from outside. -/
inductive Event (σ : Type) where
  | println (operands : List Operand) : Event σ
  | gc : Event σ
  | now (t : Time) : Event σ
  | call (bm : BenchFn σ) (db : DB) (n : Int) (err : GoError) : Event σ

variable {σ : Type}

/-- The method `benchmark.run`: collect garbage, read the clock, call the
benchmark function on `db` and `b.n`, read the clock again. -/
def benchmark.run (rt : Externals σ) (b : benchmark σ) (db : DB) (s : σ) :
    Result × List (Event σ) × σ :=
  let s1 := rt.gc s
  let start := rt.now s1
  let err := b.bm db b.n start.2
  let stop := rt.now err.2
  ({ Err := err.1, Queries := b.n, Duration := Time.Sub stop.1 start.1 },
   [Event.gc, Event.now start.1, Event.call b.bm db b.n err.1, Event.now stop.1],
   stop.2)

/-- The method `BenchmarkSuite.AddDriver`. -/
def BenchmarkSuite.AddDriver (rt : Externals σ) (bs : BenchmarkSuite σ)
    (name drv dsn : String) (s : σ) : GoError × BenchmarkSuite σ × σ :=
  match rt.sqlOpen drv dsn s with
  | (Except.error e, s1) =>
    (some ("Error registering driver '" ++ name ++ "': " ++ e), bs, s1)
  | (Except.ok db, s1) =>
    match rt.ping db s1 with
    | (some e, s2) => (some ("Error on driver '" ++ name ++ "': " ++ e), bs, s2)
    | (none, s2) =>
      (none, { bs with drivers := bs.drivers ++ [{ name := name, db := db }] }, s2)

/-- The method `BenchmarkSuite.AddBenchmark`. -/
def BenchmarkSuite.AddBenchmark (bs : BenchmarkSuite σ) (name : String) (n : Int)
    (bm : BenchFn σ) : BenchmarkSuite σ :=
  { bs with benchmarks := bs.benchmarks ++ [{ name := name, n := n, bm := bm }] }

/-- The operands of the result line of a trial (lines 93 to 97 of `Run`). -/
def Run.report (rt : Externals σ) (res : Result) : List Operand :=
  match res.Err with
  | some msg => [Operand.str msg]
  | none =>
    [Operand.str (rt.durationString res.Duration), Operand.str "   ",
     Operand.float res.QueriesPerSecond]

/-- The body of the inner loop of `Run`: one trial of `b` against `d`. -/
def Run.trial (rt : Externals σ) (b : benchmark σ) (acc : List (Event σ) × σ)
    (d : driver) : List (Event σ) × σ :=
  let r := benchmark.run rt b d.db acc.2
  (acc.1 ++ [Event.println [Operand.str d.name]] ++ r.2.1
      ++ [Event.println (Run.report rt r.1)],
   r.2.2)

/-- The body of the outer loop of `Run`: the header of `b`, its trial against
every driver, a blank line. -/
def Run.block (rt : Externals σ) (ds : List driver) (acc : List (Event σ) × σ)
    (b : benchmark σ) : List (Event σ) × σ :=
  let r := ds.foldl (Run.trial rt b)
    (acc.1 ++ [Event.println [Operand.str b.name, Operand.int b.n,
      Operand.str "iterations"]], acc.2)
  (r.1 ++ [Event.println []], r.2)

/-- The method `BenchmarkSuite.Run`: the events it performs and the world it
leaves. -/
def BenchmarkSuite.Run (rt : Externals σ) (bs : BenchmarkSuite σ) (s : σ) :
    List (Event σ) × σ :=
  if bs.drivers.length < 1 then
    ([Event.println [Operand.str "No drivers registered to run benchmarks with!"]], s)
  else if bs.benchmarks.length < 1 then
    ([Event.println [Operand.str "No benchmark functions registered!"]], s)
  else
    bs.benchmarks.foldl (Run.block rt bs.drivers)
      ([Event.println [Operand.str "Run.."]], s)

/-! ## observations on a sequence of events -/

/-- The benchmark function, the connection and the iteration count of an
invocation; `none` for another event. -/
def Event.callArgs : Event σ → Option (BenchFn σ × DB × Int)
  | Event.call bm db n _ => some (bm, db, n)
  | _ => none

/-- The operands of a call of `fmt.Println`; `none` for another event. -/
def Event.line : Event σ → Option (List Operand)
  | Event.println ops => some ops
  | _ => none

/-- The invocations of benchmark functions among the events, in order. -/
def calls (tr : List (Event σ)) : List (BenchFn σ × DB × Int) :=
  tr.filterMap Event.callArgs

/-- The calls of `fmt.Println` among the events, in order, each as the list of
its operands. -/
def printlns (tr : List (Event σ)) : List (List Operand) :=
  tr.filterMap Event.line

/-- What one trial observes of the world: the two clock readings and the answer
of the benchmark function. -/
structure Obs where
  start : Time
  err : GoError
  stop : Time

/-- The events of one trial of `b` against `d` that observes `o`: the name line,
the collection, the clock, the invocation, the clock, the result line. -/
def trialEvents (rt : Externals σ) (b : benchmark σ) (d : driver) (o : Obs) :
    List (Event σ) :=
  [Event.println [Operand.str d.name], Event.gc, Event.now o.start,
   Event.call b.bm d.db b.n o.err, Event.now o.stop,
   Event.println (Run.report rt
     { Err := o.err, Queries := b.n, Duration := Time.Sub o.stop o.start })]

/-- The events of the section of `b`: the header, the trials, the blank line. -/
def blockEvents (rt : Externals σ) (b : benchmark σ) (ps : List (driver × Obs)) :
    List (Event σ) :=
  Event.println [Operand.str b.name, Operand.int b.n, Operand.str "iterations"]
    :: ps.flatMap (fun p => trialEvents rt b p.1 p.2) ++ [Event.println []]

/-- The events of a whole run, given what every trial observes. -/
def runEvents (rt : Externals σ) (qs : List (benchmark σ × List (driver × Obs))) :
    List (Event σ) :=
  Event.println [Operand.str "Run.."] :: qs.flatMap (fun q => blockEvents rt q.1 q.2)

/-- The invocations of a run of the benchmarks `bms` against the drivers `ds`:
benchmarks outside, drivers inside. -/
def matrix (bms : List (benchmark σ)) (ds : List driver) :
    List (BenchFn σ × DB × Int) :=
  bms.flatMap (fun b => ds.map (fun d => (b.bm, d.db, b.n)))

/-- The calls of `fmt.Println` of the section of `b`, given the operands of the
result of each driver: the header, then for each driver its name and its result,
then the call without operands. -/
def sectionPrints (b : benchmark σ) (ls : List (driver × List Operand)) :
    List (List Operand) :=
  [Operand.str b.name, Operand.int b.n, Operand.str "iterations"]
    :: ls.flatMap (fun p => [[Operand.str p.1.name], p.2]) ++ [[]]

/-- The calls of `fmt.Println` of a run, given the operands of the result of each
trial: `Run..`, then the sections. -/
def runPrints (rows : List (benchmark σ × List (driver × List Operand))) :
    List (List Operand) :=
  [Operand.str "Run.."] :: rows.flatMap (fun r => sectionPrints r.1 r.2)

/-! ## the text of a run -/

/-- The text `fmt.Println` writes for one operand, in its default format: a
string as it is, an `int` in decimal, a `float64` as `floatString` formats it
(the format `%v` of the package `fmt`, a parameter here). -/
def Operand.text (floatString : F64 → String) : Operand → String
  | Operand.str s => s
  | Operand.int n => toString n
  | Operand.float x => floatString x

/-- Words separated by single spaces. -/
def Println.words : List String → String
  | [] => ""
  | [w] => w
  | w :: v :: ws => w ++ " " ++ Println.words (v :: ws)

/-- The text one call of `fmt.Println` writes: the operands, a space between any
two of them, and a newline. -/
def Println.text (floatString : F64 → String) (ops : List Operand) : String :=
  Println.words (ops.map (Operand.text floatString)) ++ "\n"

/-- The text the events write to the standard output. -/
def output (floatString : F64 → String) (tr : List (Event σ)) : String :=
  (printlns tr).foldr (fun ops rest => Println.text floatString ops ++ rest) ""

/-- The number of lines of a text: the number of its newline characters. -/
def lineCount (t : String) : Nat := t.data.count '\n'

/-- A string without a newline character. -/
def oneLine (t : String) : Prop := '\n' ∉ t.data

instance oneLine.decidable (t : String) : Decidable (oneLine t) :=
  inferInstanceAs (Decidable ('\n' ∉ t.data))

/-! ## a small world, for instances of the theorems -/

/-- Collaborators over a world that is only the clock: each reading advances it
by one tick; a connection opens unless the data source name is empty, its handle
being the length of that name, and answers the ping unless its handle is 7. -/
def exRt : Externals Nat where
  sqlOpen := fun _ dsn s =>
    if dsn = "" then (Except.error "empty dsn", s) else (Except.ok ⟨dsn.length⟩, s)
  ping := fun db s => if db.handle = 7 then (some "unreachable", s) else (none, s)
  gc := fun s => s
  now := fun s => (⟨(s : Int)⟩, s + 1)
  durationString := fun d => toString d ++ "ns"

/-- A benchmark function that fails on the connection 1 and takes `n` ticks on
every other one. -/
def exBm : BenchFn Nat := fun db n s =>
  if db.handle = 1 then (some "boom", s) else (none, s + n.toNat)

/-- A suite of two drivers and two benchmarks. -/
def exSuite : BenchmarkSuite Nat :=
  { drivers := [{ name := "a", db := ⟨1⟩ }, { name := "b", db := ⟨2⟩ }],
    benchmarks := [{ name := "select", n := 10, bm := exBm },
                   { name := "insert", n := 5, bm := exBm }] }

/-- A formatter of `float64` that writes only the class of the number. -/
def exFloatString : F64 → String
  | F64.nan => "NaN"
  | F64.inf false => "+Inf"
  | F64.inf true => "-Inf"
  | F64.fin _ _ => "finite"

/-- A benchmark function that always fails, with a message of two lines. -/
def exTwoLines : BenchFn Nat := fun _ _ s => (some "line1\nline2", s)

/-- A suite of one driver and one benchmark, which fails with a message of two
lines. -/
def exNewline : BenchmarkSuite Nat :=
  { drivers := [{ name := "a", db := ⟨1⟩ }],
    benchmarks := [{ name := "select", n := 5, bm := exTwoLines }] }

/-- A suite of two benchmarks and no driver. -/
def exNoDrivers : BenchmarkSuite Nat :=
  { drivers := [], benchmarks := exSuite.benchmarks }

/-- A suite of two drivers and no benchmark. -/
def exNoBenchmarks : BenchmarkSuite Nat :=
  { drivers := exSuite.drivers, benchmarks := [] }

/-! ## the loops of `Run` -/

theorem trial_eq (rt : Externals σ) (b : benchmark σ) (acc : List (Event σ) × σ)
    (d : driver) :
    ∃ o : Obs, (Run.trial rt b acc d).1 = acc.1 ++ trialEvents rt b d o :=
  ⟨⟨(rt.now (rt.gc acc.2)).1, (b.bm d.db b.n (rt.now (rt.gc acc.2)).2).1,
    (rt.now (b.bm d.db b.n (rt.now (rt.gc acc.2)).2).2).1⟩, by
    simp [Run.trial, benchmark.run, trialEvents]⟩

theorem trials_eq (rt : Externals σ) (b : benchmark σ) (ds : List driver) :
    ∀ acc : List (Event σ) × σ, ∃ ps : List (driver × Obs),
      ps.map Prod.fst = ds ∧
      (ds.foldl (Run.trial rt b) acc).1
        = acc.1 ++ ps.flatMap (fun p => trialEvents rt b p.1 p.2) := by
  induction ds with
  | nil => intro acc; exact ⟨[], rfl, by simp⟩
  | cons d ds ih =>
    intro acc
    obtain ⟨o, ho⟩ := trial_eq rt b acc d
    obtain ⟨ps, hps, hfold⟩ := ih (Run.trial rt b acc d)
    refine ⟨(d, o) :: ps, by simp [hps], ?_⟩
    rw [List.foldl_cons, hfold, ho]
    simp [List.flatMap_cons, List.append_assoc]

theorem block_eq (rt : Externals σ) (ds : List driver) (acc : List (Event σ) × σ)
    (b : benchmark σ) :
    ∃ ps : List (driver × Obs), ps.map Prod.fst = ds ∧
      (Run.block rt ds acc b).1 = acc.1 ++ blockEvents rt b ps := by
  obtain ⟨ps, hps, hfold⟩ := trials_eq rt b ds
    (acc.1 ++ [Event.println [Operand.str b.name, Operand.int b.n,
      Operand.str "iterations"]], acc.2)
  refine ⟨ps, hps, ?_⟩
  simp only [Run.block, hfold, blockEvents]
  simp [List.append_assoc]

theorem blocks_eq (rt : Externals σ) (ds : List driver) (bms : List (benchmark σ)) :
    ∀ acc : List (Event σ) × σ, ∃ qs : List (benchmark σ × List (driver × Obs)),
      qs.map Prod.fst = bms ∧ (∀ q ∈ qs, q.2.map Prod.fst = ds) ∧
      (bms.foldl (Run.block rt ds) acc).1
        = acc.1 ++ qs.flatMap (fun q => blockEvents rt q.1 q.2) := by
  induction bms with
  | nil => intro acc; exact ⟨[], rfl, by simp, by simp⟩
  | cons b bms ih =>
    intro acc
    obtain ⟨ps, hps, hb⟩ := block_eq rt ds acc b
    obtain ⟨qs, hqs, hall, hfold⟩ := ih (Run.block rt ds acc b)
    refine ⟨(b, ps) :: qs, by simp [hqs], ?_, ?_⟩
    · intro q hq
      rcases List.mem_cons.1 hq with rfl | hq
      · exact hps
      · exact hall q hq
    · rw [List.foldl_cons, hfold, hb]
      simp [List.flatMap_cons, List.append_assoc]

/-- The shape of every run that passes the two emptiness checks. -/
theorem run_eq (rt : Externals σ) (bs : BenchmarkSuite σ) (s : σ)
    (hd : 1 ≤ bs.drivers.length) (hb : 1 ≤ bs.benchmarks.length) :
    ∃ qs : List (benchmark σ × List (driver × Obs)),
      qs.map Prod.fst = bs.benchmarks ∧ (∀ q ∈ qs, q.2.map Prod.fst = bs.drivers) ∧
      (bs.Run rt s).1 = runEvents rt qs := by
  obtain ⟨qs, hqs, hall, hfold⟩ := blocks_eq rt bs.drivers bs.benchmarks
    ([Event.println [Operand.str "Run.."]], s)
  refine ⟨qs, hqs, hall, ?_⟩
  have h1 : ¬ bs.drivers.length < 1 := by omega
  have h2 : ¬ bs.benchmarks.length < 1 := by omega
  simp only [BenchmarkSuite.Run, h1, h2, if_false, hfold, runEvents]
  simp

/-! ## the invocations of a run -/

theorem calls_append (l₁ l₂ : List (Event σ)) :
    calls (l₁ ++ l₂) = calls l₁ ++ calls l₂ := by
  simp [calls, List.filterMap_append]

theorem calls_flatMap {α : Type} (l : List α) (f : α → List (Event σ)) :
    calls (l.flatMap f) = l.flatMap (fun a => calls (f a)) := by
  induction l with
  | nil => rfl
  | cons a l ih => simp [List.flatMap_cons, calls_append, ih]

theorem calls_trialEvents (rt : Externals σ) (b : benchmark σ) (d : driver) (o : Obs) :
    calls (trialEvents rt b d o) = [(b.bm, d.db, b.n)] := by
  simp [calls, trialEvents, Event.callArgs, List.filterMap_cons]

theorem calls_println_cons (ops : List Operand) (l : List (Event σ)) :
    calls (Event.println ops :: l) = calls l := by
  simp [calls, Event.callArgs, List.filterMap_cons]

theorem calls_trials (rt : Externals σ) (b : benchmark σ) (ps : List (driver × Obs)) :
    calls (ps.flatMap (fun p => trialEvents rt b p.1 p.2))
      = (ps.map Prod.fst).map (fun d => (b.bm, d.db, b.n)) := by
  induction ps with
  | nil => rfl
  | cons p ps ih =>
    rw [List.flatMap_cons, calls_append, calls_trialEvents, ih]
    rfl

theorem calls_blockEvents (rt : Externals σ) (b : benchmark σ)
    (ps : List (driver × Obs)) :
    calls (blockEvents rt b ps) = (ps.map Prod.fst).map (fun d => (b.bm, d.db, b.n)) := by
  rw [blockEvents, calls_append, calls_println_cons, calls_trials, calls_println_cons]
  simp [calls]

theorem calls_runEvents (rt : Externals σ) (ds : List driver)
    (qs : List (benchmark σ × List (driver × Obs)))
    (hall : ∀ q ∈ qs, q.2.map Prod.fst = ds) :
    calls (runEvents rt qs) = matrix (qs.map Prod.fst) ds := by
  rw [runEvents, calls_println_cons]
  induction qs with
  | nil => rfl
  | cons q qs ih =>
    have hq : q.2.map Prod.fst = ds := hall q (List.mem_cons_self _ _)
    have hrest : ∀ q' ∈ qs, q'.2.map Prod.fst = ds :=
      fun q' h' => hall q' (List.mem_cons_of_mem _ h')
    rw [List.flatMap_cons, calls_append, calls_blockEvents, hq, ih hrest]
    rfl

/-- The invocations of any run: none when a registry is empty, the whole matrix
otherwise. -/
theorem calls_Run (rt : Externals σ) (bs : BenchmarkSuite σ) (s : σ) :
    calls (bs.Run rt s).1 = matrix bs.benchmarks bs.drivers := by
  by_cases hd : bs.drivers.length < 1
  · have h0 : bs.drivers = [] := List.length_eq_zero.1 (by omega)
    simp [BenchmarkSuite.Run, hd, matrix, h0, calls, Event.callArgs]
  · by_cases hb : bs.benchmarks.length < 1
    · have h0 : bs.benchmarks = [] := List.length_eq_zero.1 (by omega)
      simp [BenchmarkSuite.Run, hd, matrix, h0, calls, Event.callArgs]
    · obtain ⟨qs, hqs, hall, hrun⟩ := run_eq rt bs s (by omega) (by omega)
      rw [hrun, calls_runEvents rt bs.drivers qs hall, hqs]

theorem matrix_length (bms : List (benchmark σ)) (ds : List driver) :
    (matrix bms ds).length = ds.length * bms.length := by
  induction bms with
  | nil => simp [matrix]
  | cons b bms ih =>
    simp only [matrix, List.flatMap_cons, List.length_append, List.length_map,
      List.length_cons] at ih ⊢
    rw [ih, Nat.mul_succ, Nat.add_comm]

theorem matrix_getElem? (ds : List driver) (hds : 0 < ds.length) :
    ∀ (bms : List (benchmark σ)) (k : Nat), k < ds.length * bms.length →
      ∃ b d, bms[k / ds.length]? = some b ∧ ds[k % ds.length]? = some d ∧
        (matrix bms ds)[k]? = some (b.bm, d.db, b.n) := by
  intro bms
  induction bms with
  | nil => intro k hk; simp at hk
  | cons b bms ih =>
    intro k hk
    by_cases hlt : k < ds.length
    · refine ⟨b, ds[k], ?_, ?_, ?_⟩
      · simp [Nat.div_eq_of_lt hlt]
      · simp [Nat.mod_eq_of_lt hlt, hlt]
      · simp [matrix, List.flatMap_cons, List.getElem?_append, hlt]
    · have hge : ds.length ≤ k := Nat.le_of_not_lt hlt
      have hk' : k - ds.length < ds.length * bms.length := by
        rw [List.length_cons, Nat.mul_succ] at hk
        omega
      obtain ⟨b', d, hb', hd', hm⟩ := ih (k - ds.length) hk'
      have hdiv : k / ds.length = (k - ds.length) / ds.length + 1 := by
        conv_lhs => rw [← Nat.sub_add_cancel hge]
        exact Nat.add_div_right _ hds
      have hmod : k % ds.length = (k - ds.length) % ds.length := by
        conv_lhs => rw [← Nat.sub_add_cancel hge]
        exact Nat.add_mod_right _ _
      refine ⟨b', d, ?_, ?_, ?_⟩
      · rw [hdiv]; simpa using hb'
      · rw [hmod]; exact hd'
      · have : (matrix (b :: bms) ds)[k]? = (matrix bms ds)[k - ds.length]? := by
          simp only [matrix, List.flatMap_cons]
          rw [List.getElem?_append]
          simp [hlt]
        rw [this]; exact hm

/-! ## the calls of `fmt.Println` of a run -/

theorem printlns_append (l₁ l₂ : List (Event σ)) :
    printlns (l₁ ++ l₂) = printlns l₁ ++ printlns l₂ := by
  simp [printlns, List.filterMap_append]

theorem printlns_println_cons (ops : List Operand) (l : List (Event σ)) :
    printlns (Event.println ops :: l) = ops :: printlns l := by
  simp [printlns, Event.line, List.filterMap_cons]

theorem printlns_trialEvents (rt : Externals σ) (b : benchmark σ) (d : driver) (o : Obs) :
    printlns (trialEvents rt b d o)
      = [[Operand.str d.name], Run.report rt
          { Err := o.err, Queries := b.n, Duration := Time.Sub o.stop o.start }] := by
  simp [printlns, trialEvents, Event.line, List.filterMap_cons]

theorem printlns_trials (rt : Externals σ) (b : benchmark σ) (ps : List (driver × Obs)) :
    printlns (ps.flatMap (fun p => trialEvents rt b p.1 p.2))
      = (ps.map (fun p => (p.1, Run.report rt
          { Err := p.2.err, Queries := b.n,
            Duration := Time.Sub p.2.stop p.2.start }))).flatMap
          (fun p => [[Operand.str p.1.name], p.2]) := by
  induction ps with
  | nil => rfl
  | cons p ps ih =>
    rw [List.flatMap_cons, printlns_append, printlns_trialEvents, ih]
    rfl

theorem printlns_blockEvents (rt : Externals σ) (b : benchmark σ)
    (ps : List (driver × Obs)) :
    printlns (blockEvents rt b ps)
      = sectionPrints b (ps.map (fun p => (p.1, Run.report rt
          { Err := p.2.err, Queries := b.n,
            Duration := Time.Sub p.2.stop p.2.start }))) := by
  rw [blockEvents, printlns_append, printlns_println_cons, printlns_trials,
    printlns_println_cons]
  rfl

theorem printlns_runEvents (rt : Externals σ)
    (qs : List (benchmark σ × List (driver × Obs))) :
    printlns (runEvents rt qs)
      = runPrints (qs.map (fun q => (q.1, q.2.map (fun p => (p.1, Run.report rt
          { Err := p.2.err, Queries := q.1.n,
            Duration := Time.Sub p.2.stop p.2.start }))))) := by
  rw [runEvents, printlns_println_cons, runPrints]
  congr 1
  induction qs with
  | nil => rfl
  | cons q qs ih =>
    rw [List.flatMap_cons, printlns_append, printlns_blockEvents, ih]
    rfl

theorem length_sectionPrints (b : benchmark σ) (ls : List (driver × List Operand)) :
    (sectionPrints b ls).length = 2 + 2 * ls.length := by
  have h : (ls.flatMap (fun p => [[Operand.str p.1.name], p.2])).length
      = 2 * ls.length := by
    induction ls with
    | nil => rfl
    | cons p ls ih =>
      rw [List.flatMap_cons, List.length_append, ih, List.length_cons]
      simp only [List.length_cons, List.length_nil]
      omega
  simp only [sectionPrints, List.length_append, List.length_cons, List.length_nil, h]
  omega

theorem length_runPrints (N : Nat)
    (rows : List (benchmark σ × List (driver × List Operand)))
    (hall : ∀ r ∈ rows, r.2.length = N) :
    (runPrints rows).length = 1 + rows.length * (2 + 2 * N) := by
  have h : (rows.flatMap (fun r => sectionPrints r.1 r.2)).length
      = rows.length * (2 + 2 * N) := by
    induction rows with
    | nil => simp
    | cons r rows ih =>
      have hr : r.2.length = N := hall r (List.mem_cons_self _ _)
      have hrest : ∀ r' ∈ rows, r'.2.length = N :=
        fun r' h' => hall r' (List.mem_cons_of_mem _ h')
      rw [List.flatMap_cons, List.length_append, length_sectionPrints, hr, ih hrest,
        List.length_cons, Nat.add_mul, Nat.one_mul]
      omega
  simp only [runPrints, List.length_cons, h]
  omega

/-! ## the place of a trial in a run -/

theorem flatMap_split {α β : Type} (f : α → List β) :
    ∀ (l : List α) (k : Nat) (a : α), l[k]? = some a →
      l.flatMap f = (l.take k).flatMap f ++ f a ++ (l.drop (k + 1)).flatMap f := by
  intro l
  induction l with
  | nil => intro k a h; simp at h
  | cons x l ih =>
    intro k a h
    cases k with
    | zero =>
      simp only [List.getElem?_cons_zero, Option.some.injEq] at h
      subst h
      simp [List.flatMap_cons]
    | succ k =>
      simp only [List.getElem?_cons_succ] at h
      simp only [List.take_succ_cons, List.drop_succ_cons, List.flatMap_cons,
        List.append_assoc]
      rw [ih k a h]
      simp [List.append_assoc]

theorem getElem?_of_map_fst {α β : Type} (l : List (α × β)) (k : Nat) (a : α)
    (h : (l.map Prod.fst)[k]? = some a) : ∃ p, l[k]? = some p ∧ p.1 = a := by
  rw [List.getElem?_map] at h
  cases hp : l[k]? with
  | none => simp [hp] at h
  | some p =>
    rw [hp] at h
    exact ⟨p, rfl, by simpa using h⟩

/-- Every trial of the matrix has its place in a run: the `k`-th one comes after
exactly `k` invocations. -/
theorem trial_place (rt : Externals σ) (ds : List driver)
    (qs : List (benchmark σ × List (driver × Obs)))
    (hall : ∀ q ∈ qs, q.2.map Prod.fst = ds) (k : Nat)
    (hk : k < ds.length * qs.length) :
    ∃ q p pre post, qs[k / ds.length]? = some q ∧ q.2[k % ds.length]? = some p
      ∧ runEvents rt qs = pre ++ trialEvents rt q.1 p.1 p.2 ++ post
      ∧ (calls pre).length = k := by
  have hds : 0 < ds.length := by
    rcases Nat.eq_zero_or_pos ds.length with h | h
    · rw [h, Nat.zero_mul] at hk; omega
    · exact h
  have hi : k / ds.length < qs.length :=
    (Nat.div_lt_iff_lt_mul hds).2 (by rw [Nat.mul_comm]; exact hk)
  have hq : qs[k / ds.length]? = some qs[k / ds.length] := List.getElem?_eq_getElem hi
  have hqmem : qs[k / ds.length] ∈ qs := List.getElem_mem hi
  have hlen : (qs[k / ds.length]).2.length = ds.length := by
    have h := congrArg List.length (hall _ hqmem)
    simpa using h
  have hj : k % ds.length < (qs[k / ds.length]).2.length := by
    rw [hlen]; exact Nat.mod_lt _ hds
  have hp : (qs[k / ds.length]).2[k % ds.length]?
      = some (qs[k / ds.length]).2[k % ds.length] := List.getElem?_eq_getElem hj
  refine ⟨qs[k / ds.length], (qs[k / ds.length]).2[k % ds.length],
    runEvents rt (qs.take (k / ds.length))
      ++ Event.println [Operand.str (qs[k / ds.length]).1.name,
          Operand.int (qs[k / ds.length]).1.n, Operand.str "iterations"]
      :: ((qs[k / ds.length]).2.take (k % ds.length)).flatMap
          (fun p => trialEvents rt (qs[k / ds.length]).1 p.1 p.2),
    (((qs[k / ds.length]).2.drop (k % ds.length + 1)).flatMap
          (fun p => trialEvents rt (qs[k / ds.length]).1 p.1 p.2)
        ++ [Event.println []])
      ++ (qs.drop (k / ds.length + 1)).flatMap (fun q => blockEvents rt q.1 q.2),
    hq, hp, ?_, ?_⟩
  · rw [runEvents, flatMap_split (fun q => blockEvents rt q.1 q.2) qs _ _ hq]
    simp only [blockEvents, runEvents]
    rw [flatMap_split (fun p => trialEvents rt (qs[k / ds.length]).1 p.1 p.2)
      (qs[k / ds.length]).2 _ _ hp]
    simp only [List.append_assoc, List.cons_append]
  · have hall' : ∀ q ∈ qs.take (k / ds.length), q.2.map Prod.fst = ds :=
      fun q hq' => hall q (List.mem_of_mem_take hq')
    rw [calls_append, calls_println_cons, calls_trials, List.length_append,
      calls_runEvents rt ds _ hall', matrix_length, List.length_map, List.length_map,
      List.length_map, List.length_take, List.length_take,
      Nat.min_eq_left (Nat.le_of_lt hi), Nat.min_eq_left (Nat.le_of_lt hj)]
    exact Nat.div_add_mod k ds.length

/-! ## float64: the facts the claims need -/

namespace F64

theorem roundHalfEven_intCast (k : Int) : roundHalfEven (k : ℚ) = k := by
  simp [roundHalfEven]

theorem floor_le_roundHalfEven (x : ℚ) : ⌊x⌋ ≤ roundHalfEven x := by
  unfold roundHalfEven
  split_ifs <;> omega

theorem ulp_pos (a : ℚ) : 0 < ulp a := by
  unfold ulp
  positivity

theorem roundMag_zero : roundMag 0 = some 0 := by
  simp [roundMag, roundHalfEven]

theorem log_nonneg_of_one_le {a : ℚ} (ha : 1 ≤ a) : 0 ≤ Int.log 2 a := by
  rw [Int.log_of_one_le_right 2 ha]
  exact Int.natCast_nonneg _

theorem ulp_le_self {a : ℚ} (ha : 1 ≤ a) : ulp a ≤ a := by
  have hlog := log_nonneg_of_one_le ha
  have hpos : (0 : ℚ) < a := lt_of_lt_of_le one_pos ha
  have hmax : max (Int.log 2 a) (-1022) = Int.log 2 a := max_eq_left (by omega)
  have h1 : ulp a ≤ (2 : ℚ) ^ Int.log 2 a := by
    unfold ulp
    rw [hmax]
    exact zpow_le_zpow_right₀ (by norm_num) (by omega)
  have h2 : ((2 : ℕ) : ℚ) ^ Int.log 2 a ≤ a := Int.zpow_log_le_self (by norm_num) hpos
  exact le_trans h1 (by exact_mod_cast h2)

/-- A magnitude of at least 1 does not round to zero. -/
theorem roundMag_ne_zero {a : ℚ} (ha : 1 ≤ a) : roundMag a ≠ some 0 := by
  have hu := ulp_pos a
  have hx : 1 ≤ a / ulp a := by
    rw [le_div_iff₀ hu, one_mul]
    exact ulp_le_self ha
  have hfl : (1 : Int) ≤ ⌊a / ulp a⌋ := Int.le_floor.2 (by exact_mod_cast hx)
  have hr : (1 : Int) ≤ roundHalfEven (a / ulp a) :=
    le_trans hfl (floor_le_roundHalfEven _)
  have hrq : (1 : ℚ) ≤ (roundHalfEven (a / ulp a) : ℚ) := by exact_mod_cast hr
  have hprod : 0 < (roundHalfEven (a / ulp a) : ℚ) * ulp a :=
    mul_pos (lt_of_lt_of_le one_pos hrq) hu
  unfold roundMag
  split_ifs
  · simp
  · intro h
    rw [Option.some.injEq] at h
    rw [h] at hprod
    exact lt_irrefl _ hprod

/-- The integers below `2 ^ 53` are binary64 numbers. -/
theorem roundMag_natCast (n : ℕ) (hn : n < 2 ^ 53) : roundMag (n : ℚ) = some (n : ℚ) := by
  rcases Nat.eq_zero_or_pos n with h0 | hpos
  · subst h0
    simpa using roundMag_zero
  · have hne : n ≠ 0 := by omega
    have hlog : Nat.log 2 n < 53 := Nat.log_lt_of_lt_pow hne hn
    obtain ⟨j, hj⟩ : ∃ j : ℕ, Nat.log 2 n + j = 52 := ⟨52 - Nat.log 2 n, by omega⟩
    have hexp : max (Int.log 2 (n : ℚ)) (-1022) - 52 = -(j : Int) := by
      rw [Int.log_natCast]
      have : (-1022 : Int) ≤ (Nat.log 2 n : Int) := by omega
      rw [max_eq_left this]
      omega
    have hulp : ulp (n : ℚ) = ((2 : ℚ) ^ j)⁻¹ := by
      unfold ulp
      rw [hexp, zpow_neg, zpow_natCast]
    have h2j : (0 : ℚ) < (2 : ℚ) ^ j := by positivity
    have hquot : (n : ℚ) / ulp (n : ℚ) = (((n * 2 ^ j : ℕ) : Int) : ℚ) := by
      rw [hulp, div_inv_eq_mul]
      push_cast
      ring
    have hback : ((((n * 2 ^ j : ℕ) : Int)) : ℚ) * ulp (n : ℚ) = (n : ℚ) := by
      rw [hulp]
      push_cast
      field_simp
    have hsmall : ¬ (2 : ℚ) ^ (1024 : ℕ) ≤ (n : ℚ) := by
      have h1 : (n : ℚ) < (2 : ℚ) ^ (53 : ℕ) := by exact_mod_cast hn
      have h2 : (2 : ℚ) ^ (53 : ℕ) ≤ (2 : ℚ) ^ (1024 : ℕ) :=
        pow_le_pow_right₀ (by norm_num) (by norm_num)
      intro h
      exact absurd (lt_of_lt_of_le h1 (le_trans h2 h)) (lt_irrefl _)
    unfold roundMag
    rw [hquot, roundHalfEven_intCast, hback, if_neg hsmall]

theorem ofRat_natCast (n : ℕ) (hn : n < 2 ^ 53) : ofRat (n : ℚ) = fin false (n : ℚ) := by
  have hneg : ¬ ((n : ℚ) < 0) := not_lt.2 (Nat.cast_nonneg n)
  unfold ofRat round
  rw [abs_of_nonneg (Nat.cast_nonneg n), roundMag_natCast n hn]
  simp [hneg]

theorem ofInt_zero : ofInt 0 = fin false 0 := by
  have h := ofRat_natCast 0 (by norm_num)
  simpa [ofInt] using h

/-- The conversion of a non-zero integer is an infinity or a non-zero number, of
the sign of the integer. -/
theorem ofInt_ne_zero (q : Int) (hq : q ≠ 0) :
    ofInt q = inf (decide (q < 0))
      ∨ ∃ m : ℚ, m ≠ 0 ∧ ofInt q = fin (decide (q < 0)) m := by
  have habs : (1 : ℚ) ≤ |(q : ℚ)| := by
    have h1 : (1 : Int) ≤ |q| := Int.one_le_abs hq
    exact_mod_cast h1
  have hdec : decide ((q : ℚ) < 0) = decide (q < 0) := by
    simp
  unfold ofInt ofRat round
  rw [hdec]
  cases hm : roundMag |(q : ℚ)| with
  | none => exact Or.inl rfl
  | some m =>
    refine Or.inr ⟨m, ?_, rfl⟩
    intro h0
    rw [h0] at hm
    exact roundMag_ne_zero habs hm

theorem div_fin_fin (s t : Bool) (a b : ℚ) :
    div (fin s a) (fin t b)
      = if b = 0 then (if a = 0 then nan else inf (xor s t))
        else round (xor s t) (a / b) := rfl

theorem div_inf_fin (s t : Bool) (b : ℚ) : div (inf s) (fin t b) = inf (xor s t) := rfl

theorem add_fin_fin (s t : Bool) (a b : ℚ) :
    add (fin s a) (fin t b)
      = if signed s a + signed t b = 0 then fin (s && t) 0
        else ofRat (signed s a + signed t b) := rfl

theorem round_zero (s : Bool) : round s 0 = fin s 0 := by
  unfold round
  rw [roundMag_zero]

end F64

/-- A duration of zero is `+0` seconds. -/
theorem Seconds_zero : Duration.Seconds 0 = F64.fin false 0 := by
  have hdiv : F64.div (F64.fin false 0) (F64.fin false 1000000000)
      = F64.fin false 0 := by
    rw [F64.div_fin_fin, if_neg (by norm_num), zero_div]
    exact F64.round_zero _
  have hadd : F64.add (F64.fin false 0) (F64.fin false 0) = F64.fin false 0 := by
    rw [F64.add_fin_fin, if_pos (by simp [F64.signed])]
    rfl
  unfold Duration.Seconds
  rw [Int.zero_tdiv, Int.zero_tmod, F64.ofInt_zero, hdiv, hadd]

theorem F64.ofInt_of_abs_lt (q : Int) (hq : |q| < 2 ^ 53) :
    F64.ofInt q = F64.fin (decide (q < 0)) |(q : ℚ)| := by
  have hdec : decide ((q : ℚ) < 0) = decide (q < 0) := by simp
  have habs : |(q : ℚ)| = ((q.natAbs : ℕ) : ℚ) := by
    rw [Nat.cast_natAbs, Int.cast_abs]
  have hlt : q.natAbs < 2 ^ 53 := by
    have h : ((q.natAbs : ℕ) : Int) < 2 ^ 53 := by
      rw [Int.natCast_natAbs]; exact hq
    exact_mod_cast h
  unfold F64.ofInt F64.ofRat F64.round
  rw [hdec, habs, F64.roundMag_natCast _ hlt]

theorem F64.zero_div_lit : F64.div (F64.fin false 0) (F64.fin false 1000000000)
    = F64.fin false 0 := by
  rw [F64.div_fin_fin, if_neg (by norm_num), zero_div]
  exact F64.round_zero _

/-- A whole number of seconds is converted exactly. -/
theorem Seconds_whole (secs : Int) (hpos : 0 < secs) (hmax : secs * Second ≤ maxDuration) :
    Duration.Seconds (secs * Second) = F64.fin false (secs : ℚ) := by
  have hS : Second ≠ 0 := by decide
  have hlt : |secs| < 2 ^ 53 := by
    rw [abs_of_pos hpos]
    unfold Second maxDuration at hmax
    omega
  have hsq : (0 : ℚ) < (secs : ℚ) := by exact_mod_cast hpos
  have hconv : F64.ofInt secs = F64.fin false (secs : ℚ) := by
    rw [F64.ofInt_of_abs_lt secs hlt, abs_of_pos hsq]
    simp [not_lt.2 (le_of_lt hpos)]
  have hofRat : F64.ofRat (secs : ℚ) = F64.fin false (secs : ℚ) := hconv
  unfold Duration.Seconds
  rw [Int.mul_tdiv_cancel secs hS, Int.mul_tmod_left, F64.ofInt_zero, F64.zero_div_lit,
    hconv, F64.add_fin_fin]
  have hsum : F64.signed false (secs : ℚ) + F64.signed false 0 = (secs : ℚ) := by
    simp [F64.signed]
  rw [hsum, if_neg (ne_of_gt hsq), hofRat]

/-- The queries per second of a trial of duration zero. -/
theorem qps_zero_duration (err : GoError) (q : Int) :
    Result.QueriesPerSecond { Err := err, Queries := q, Duration := 0 }
      = if 0 < q then F64.inf false else if q = 0 then F64.nan else F64.inf true := by
  unfold Result.QueriesPerSecond
  simp only [Seconds_zero]
  rcases lt_trichotomy q 0 with hneg | hzero | hpos
  · have hne : q ≠ 0 := ne_of_lt hneg
    have hdec : decide (q < 0) = true := by simp [hneg]
    rw [if_neg (not_lt.2 (le_of_lt hneg)), if_neg hne]
    rcases F64.ofInt_ne_zero q hne with h | ⟨m, hm, h⟩
    · rw [h, hdec, F64.div_inf_fin]; rfl
    · rw [h, hdec, F64.div_fin_fin, if_pos rfl, if_neg hm]; rfl
  · subst hzero
    rw [if_neg (lt_irrefl _), if_pos rfl, F64.ofInt_zero, F64.div_fin_fin, if_pos rfl,
      if_pos rfl]
  · have hne : q ≠ 0 := ne_of_gt hpos
    have hdec : decide (q < 0) = false := by simp [le_of_lt hpos]
    rw [if_pos hpos]
    rcases F64.ofInt_ne_zero q hne with h | ⟨m, hm, h⟩
    · rw [h, hdec, F64.div_inf_fin]; rfl
    · rw [h, hdec, F64.div_fin_fin, if_pos rfl, if_neg hm]; rfl

/-! ## the lines of a text -/

theorem lineCount_append (a b : String) :
    lineCount (a ++ b) = lineCount a + lineCount b := by
  simp [lineCount, String.data_append, List.count_append]

theorem lineCount_of_oneLine {t : String} (h : oneLine t) : lineCount t = 0 :=
  List.count_eq_zero_of_not_mem h

theorem oneLine_append {a b : String} (ha : oneLine a) (hb : oneLine b) :
    oneLine (a ++ b) := by
  unfold oneLine at *
  rw [String.data_append, List.mem_append]
  rintro (h | h)
  · exact ha h
  · exact hb h

theorem digitChar_ne_newline (d : Nat) : Nat.digitChar d ≠ '\n' := by
  rcases Nat.lt_or_ge d 16 with h | h
  · interval_cases d <;> decide
  · have h16 : Nat.digitChar d = '*' := by
      unfold Nat.digitChar
      repeat rw [if_neg (by omega)]
    rw [h16]
    decide

theorem toDigitsCore_no_newline (base : Nat) :
    ∀ (fuel n : Nat) (ds : List Char), '\n' ∉ ds →
      '\n' ∉ Nat.toDigitsCore base fuel n ds := by
  intro fuel
  induction fuel with
  | zero => intro n ds h; simpa [Nat.toDigitsCore] using h
  | succ fuel ih =>
    intro n ds h
    have hd : '\n' ∉ Nat.digitChar (n % base) :: ds := by
      intro hmem
      rcases List.mem_cons.1 hmem with h' | h'
      · exact digitChar_ne_newline _ h'.symm
      · exact h h'
    unfold Nat.toDigitsCore
    dsimp only
    split_ifs
    · exact hd
    · exact ih _ _ hd

theorem oneLine_toString_nat (n : Nat) : oneLine (toString n) := by
  show '\n' ∉ (Nat.repr n).data
  unfold Nat.repr Nat.toDigits
  exact toDigitsCore_no_newline 10 _ _ _ (by simp)

/-- The decimal form of an integer has no newline. -/
theorem oneLine_toString_int (n : Int) : oneLine (toString n) := by
  cases n with
  | ofNat m => exact oneLine_toString_nat m
  | negSucc m =>
    show oneLine ("-" ++ toString (Nat.succ m))
    exact oneLine_append (by decide) (oneLine_toString_nat _)

theorem oneLine_words (ws : List String) (h : ∀ w ∈ ws, oneLine w) :
    oneLine (Println.words ws) := by
  induction ws with
  | nil => exact (by decide : oneLine "")
  | cons w ws ih =>
    cases ws with
    | nil => exact h w (List.mem_cons_self _ _)
    | cons v ws =>
      show oneLine (w ++ " " ++ Println.words (v :: ws))
      exact oneLine_append
        (oneLine_append (h w (List.mem_cons_self _ _)) (by decide))
        (ih (fun u hu => h u (List.mem_cons_of_mem _ hu)))

/-- A call of `fmt.Println` whose operands have no newline writes one line. -/
theorem lineCount_text (floatString : F64 → String) (ops : List Operand)
    (h : ∀ op ∈ ops, oneLine (Operand.text floatString op)) :
    lineCount (Println.text floatString ops) = 1 := by
  have hw : oneLine (Println.words (ops.map (Operand.text floatString))) := by
    apply oneLine_words
    intro w hw
    obtain ⟨op, hop, rfl⟩ := List.mem_map.1 hw
    exact h op hop
  unfold Println.text
  rw [lineCount_append, lineCount_of_oneLine hw]
  rfl

theorem lineCount_output (floatString : F64 → String) (tr : List (Event σ))
    (h : ∀ ops ∈ printlns tr, lineCount (Println.text floatString ops) = 1) :
    lineCount (output floatString tr) = (printlns tr).length := by
  unfold output
  generalize printlns tr = l at h
  induction l with
  | nil => rfl
  | cons ops l ih =>
    rw [List.foldr_cons, lineCount_append, h ops (List.mem_cons_self _ _),
      ih (fun o ho => h o (List.mem_cons_of_mem _ ho)), List.length_cons, Nat.add_comm]

theorem oneLine_report (rt : Externals σ) (floatString : F64 → String)
    (hdur : ∀ d, oneLine (rt.durationString d)) (hfl : ∀ x, oneLine (floatString x))
    (res : Result) (herr : ∀ msg, res.Err = some msg → oneLine msg) :
    ∀ op ∈ Run.report rt res, oneLine (Operand.text floatString op) := by
  intro op hop
  unfold Run.report at hop
  cases hres : res.Err with
  | some msg =>
    rw [hres] at hop
    simp only [List.mem_singleton] at hop
    subst hop
    exact herr msg hres
  | none =>
    rw [hres] at hop
    simp only [List.mem_cons, List.mem_singleton, List.not_mem_nil, or_false] at hop
    rcases hop with rfl | rfl | rfl
    · exact hdur _
    · exact (by decide : oneLine "   ")
    · exact hfl _

/-- The operands of every call of `fmt.Println` of a run have no newline when the
names, the formatted durations and numbers and the messages of the errors of the
run have none. -/
theorem runEvents_oneLine (rt : Externals σ) (floatString : F64 → String)
    (qs : List (benchmark σ × List (driver × Obs)))
    (hbn : ∀ q ∈ qs, oneLine q.1.name)
    (hdn : ∀ q ∈ qs, ∀ p ∈ q.2, oneLine p.1.name)
    (hdur : ∀ d, oneLine (rt.durationString d)) (hfl : ∀ x, oneLine (floatString x))
    (herr : ∀ f db n msg, Event.call f db n (some msg) ∈ runEvents rt qs → oneLine msg) :
    ∀ ops, Event.println ops ∈ runEvents rt qs →
      ∀ op ∈ ops, oneLine (Operand.text floatString op) := by
  intro ops hmem op hop
  unfold runEvents at hmem
  rcases List.mem_cons.1 hmem with h | h
  · injection h with h
    subst h
    simp only [List.mem_singleton] at hop
    subst hop
    exact (by decide : oneLine "Run..")
  · obtain ⟨q, hq, hblock⟩ := List.mem_flatMap.1 h
    unfold blockEvents at hblock
    rcases List.mem_append.1 hblock with hblock | hblock
    · rcases List.mem_cons.1 hblock with h | h
      · injection h with h
        subst h
        simp only [List.mem_cons, List.mem_singleton, List.not_mem_nil, or_false] at hop
        rcases hop with rfl | rfl | rfl
        · exact hbn q hq
        · exact oneLine_toString_int _
        · exact (by decide : oneLine "iterations")
      · obtain ⟨p, hp, htrial⟩ := List.mem_flatMap.1 h
        have hcall : Event.call q.1.bm p.1.db q.1.n p.2.err ∈ runEvents rt qs := by
          unfold runEvents
          refine List.mem_cons_of_mem _ (List.mem_flatMap.2 ⟨q, hq, ?_⟩)
          unfold blockEvents
          refine List.mem_append_left _ (List.mem_cons_of_mem _
            (List.mem_flatMap.2 ⟨p, hp, ?_⟩))
          simp [trialEvents]
        simp only [trialEvents, List.mem_cons, List.mem_singleton, List.not_mem_nil,
          or_false, reduceCtorEq, false_or, Event.println.injEq] at htrial
        rcases htrial with h | h
        · subst h
          simp only [List.mem_singleton] at hop
          subst hop
          exact hdn q hq p hp
        · subst h
          refine oneLine_report rt floatString hdur hfl _ ?_ op hop
          intro msg hmsg
          have hmsg' : p.2.err = some msg := hmsg
          rw [hmsg'] at hcall
          exact herr _ _ _ _ hcall
    · simp only [List.mem_singleton] at hblock
      injection hblock with h
      subst h
      simp at hop

theorem mem_printlns {tr : List (Event σ)} {ops : List Operand}
    (h : ops ∈ printlns tr) : Event.println ops ∈ tr := by
  obtain ⟨e, he, hline⟩ := List.mem_filterMap.1 h
  cases e with
  | println o =>
    simp only [Event.line, Option.some.injEq] at hline
    subst hline
    exact he
  | gc => simp [Event.line] at hline
  | now t => simp [Event.line] at hline
  | call f db n err => simp [Event.line] at hline

/-- In a run whose names, formatted durations and numbers and messages of errors
have no newline, every call of `fmt.Println` writes one line. -/
theorem run_one_line_per_call (rt : Externals σ) (floatString : F64 → String)
    (bs : BenchmarkSuite σ) (s : σ)
    (hd : 1 ≤ bs.drivers.length) (hb : 1 ≤ bs.benchmarks.length)
    (hdn : ∀ d ∈ bs.drivers, oneLine d.name)
    (hbn : ∀ b ∈ bs.benchmarks, oneLine b.name)
    (hdur : ∀ d, oneLine (rt.durationString d)) (hfl : ∀ x, oneLine (floatString x))
    (herr : ∀ f db n msg, Event.call f db n (some msg) ∈ (bs.Run rt s).1 → oneLine msg) :
    ∀ ops ∈ printlns (bs.Run rt s).1, lineCount (Println.text floatString ops) = 1 := by
  obtain ⟨qs, hqs, hall, hrun⟩ := run_eq rt bs s hd hb
  intro ops hops
  apply lineCount_text
  have hmem := mem_printlns hops
  rw [hrun] at hmem herr
  refine runEvents_oneLine rt floatString qs ?_ ?_ hdur hfl herr ops hmem
  · intro q hq
    exact hbn q.1 (by rw [← hqs]; exact List.mem_map_of_mem _ hq)
  · intro q hq p hp
    exact hdn p.1 (by rw [← hall q hq]; exact List.mem_map_of_mem _ hp)

/-! ## the claims -/

/-- C1: a run of a suite of `N ≥ 1` drivers and `M ≥ 1` benchmarks invokes the
benchmark functions exactly `N * M` times, whatever they answer: the invocations
are those of the matrix, benchmarks in registration order outside and drivers in
registration order inside, so that invocation number `k` (from 0) is benchmark
number `k / N` on the connection of driver number `k % N`, with the iteration
count of that benchmark. -/
theorem C1_run_order (rt : Externals σ) (bs : BenchmarkSuite σ) (s : σ)
    (hd : 1 ≤ bs.drivers.length) (hb : 1 ≤ bs.benchmarks.length) :
    calls (bs.Run rt s).1
        = bs.benchmarks.flatMap (fun b => bs.drivers.map (fun d => (b.bm, d.db, b.n)))
      ∧ (calls (bs.Run rt s).1).length = bs.drivers.length * bs.benchmarks.length
      ∧ ∀ k, k < bs.drivers.length * bs.benchmarks.length →
          ∃ b d, bs.benchmarks[k / bs.drivers.length]? = some b
            ∧ bs.drivers[k % bs.drivers.length]? = some d
            ∧ (calls (bs.Run rt s).1)[k]? = some (b.bm, d.db, b.n) := by
  have _ := hb
  refine ⟨calls_Run rt bs s, ?_, ?_⟩
  · rw [calls_Run, matrix_length]
  · intro k hk
    rw [calls_Run]
    exact matrix_getElem? bs.drivers hd bs.benchmarks k hk

/-- C1 at the suite `exSuite` of two drivers and two benchmarks, the first driver
failing every trial. -/
theorem C1_run_order_witness :
    calls (exSuite.Run exRt 0).1
        = exSuite.benchmarks.flatMap
            (fun b => exSuite.drivers.map (fun d => (b.bm, d.db, b.n)))
      ∧ (calls (exSuite.Run exRt 0).1).length
          = exSuite.drivers.length * exSuite.benchmarks.length
      ∧ ∀ k, k < exSuite.drivers.length * exSuite.benchmarks.length →
          ∃ b d, exSuite.benchmarks[k / exSuite.drivers.length]? = some b
            ∧ exSuite.drivers[k % exSuite.drivers.length]? = some d
            ∧ (calls (exSuite.Run exRt 0).1)[k]? = some (b.bm, d.db, b.n) :=
  C1_run_order exRt exSuite 0 (by decide) (by decide)

/-- C10, as the code has it: a run of a suite of `N ≥ 1` drivers and `M ≥ 1`
benchmarks makes exactly `1 + M * (2 + 2 * N)` calls of `fmt.Println`: `Run..`,
then for each benchmark in registration order the header `name n iterations`,
for each driver in registration order the name of the driver and the one result
of the trial, and a call without operands. When no name of a driver or of a
benchmark, no formatted duration or number and no message of an error of the
run contains a newline, every call writes exactly one line and the text has
exactly `1 + M * (2 + 2 * N)` lines. -/
theorem C10_run_lines (rt : Externals σ) (floatString : F64 → String)
    (bs : BenchmarkSuite σ) (s : σ)
    (hd : 1 ≤ bs.drivers.length) (hb : 1 ≤ bs.benchmarks.length) :
    (∃ rows : List (benchmark σ × List (driver × List Operand)),
      rows.map Prod.fst = bs.benchmarks
      ∧ (∀ r ∈ rows, r.2.map Prod.fst = bs.drivers)
      ∧ (∀ r ∈ rows, ∀ p ∈ r.2, ∃ err t0 t1,
          p.2 = Run.report rt
            { Err := err, Queries := r.1.n, Duration := Time.Sub t1 t0 })
      ∧ printlns (bs.Run rt s).1
          = [Operand.str "Run.."] :: rows.flatMap (fun r =>
              [Operand.str r.1.name, Operand.int r.1.n, Operand.str "iterations"]
                :: r.2.flatMap (fun p => [[Operand.str p.1.name], p.2]) ++ [[]])
      ∧ (printlns (bs.Run rt s).1).length
          = 1 + bs.benchmarks.length * (2 + 2 * bs.drivers.length))
    ∧ ((∀ d ∈ bs.drivers, oneLine d.name) →
        (∀ b ∈ bs.benchmarks, oneLine b.name) →
        (∀ d, oneLine (rt.durationString d)) →
        (∀ x, oneLine (floatString x)) →
        (∀ f db n msg, Event.call f db n (some msg) ∈ (bs.Run rt s).1 → oneLine msg) →
        (∀ ops ∈ printlns (bs.Run rt s).1,
            lineCount (Println.text floatString ops) = 1)
          ∧ lineCount (output floatString (bs.Run rt s).1)
              = 1 + bs.benchmarks.length * (2 + 2 * bs.drivers.length)) := by
  obtain ⟨qs, hqs, hall, hrun⟩ := run_eq rt bs s hd hb
  have hrows : ∀ r ∈ qs.map (fun q => (q.1, q.2.map (fun p => (p.1, Run.report rt
      { Err := p.2.err, Queries := q.1.n,
        Duration := Time.Sub p.2.stop p.2.start })))),
      r.2.map Prod.fst = bs.drivers := by
    intro r hr
    obtain ⟨q, hq, rfl⟩ := List.mem_map.1 hr
    rw [← hall q hq]
    simp [List.map_map, Function.comp_def]
  have hlen : (printlns (bs.Run rt s).1).length
      = 1 + bs.benchmarks.length * (2 + 2 * bs.drivers.length) := by
    rw [hrun, printlns_runEvents, length_runPrints bs.drivers.length]
    · rw [List.length_map, ← hqs, List.length_map]
    · intro r hr
      rw [← hrows r hr, List.length_map]
  refine ⟨⟨_, ?_, hrows, ?_, ?_, hlen⟩, ?_⟩
  · rw [← hqs]
    simp [List.map_map, Function.comp_def]
  · intro r hr p hp
    obtain ⟨q, _, rfl⟩ := List.mem_map.1 hr
    obtain ⟨p', _, rfl⟩ := List.mem_map.1 hp
    exact ⟨p'.2.err, p'.2.start, p'.2.stop, rfl⟩
  · rw [hrun, printlns_runEvents]
    rfl
  · intro hdn hbn hdur hfl herr
    have hone := run_one_line_per_call rt floatString bs s hd hb hdn hbn hdur hfl herr
    exact ⟨hone, by rw [lineCount_output floatString _ hone, hlen]⟩

/-- C10 at the suite `exSuite`, whose names and messages have no newline: its
text has thirteen lines. -/
theorem C10_run_lines_witness :
    lineCount (output exFloatString (exSuite.Run exRt 0).1)
      = 1 + exSuite.benchmarks.length * (2 + 2 * exSuite.drivers.length) :=
  ((C10_run_lines exRt exFloatString exSuite 0 (by decide) (by decide)).2
    (by decide) (by decide)
    (fun d => oneLine_append (oneLine_toString_int d) (by decide))
    (fun x => by
      cases x with
      | nan => decide
      | inf neg => cases neg <;> decide
      | fin neg mag => exact (by decide : oneLine "finite"))
    (fun f db n msg h => by
      simp [BenchmarkSuite.Run, exSuite, Run.block, Run.trial, benchmark.run, exRt,
        exBm] at h
      rcases h with ⟨_, _, _, h⟩ | ⟨_, _, _, h⟩ <;> subst h <;> decide)).2

/-- C10 as stated fails: the suite `exNewline` has one driver and one benchmark,
whose function fails with the message `line1`, newline, `line2`; the run writes
six lines of text, not `1 + 1 * (2 + 2 * 1) = 5`. -/
theorem C10_newline_counterexample :
    1 ≤ exNewline.drivers.length ∧ 1 ≤ exNewline.benchmarks.length
      ∧ output exFloatString (exNewline.Run exRt 0).1
          = "Run..\nselect 5 iterations\na\nline1\nline2\n\n"
      ∧ lineCount (output exFloatString (exNewline.Run exRt 0).1) = 6
      ∧ lineCount (output exFloatString (exNewline.Run exRt 0).1)
          ≠ 1 + exNewline.benchmarks.length * (2 + 2 * exNewline.drivers.length) := by
  refine ⟨by decide, by decide, by decide, by decide, by decide⟩

/-- C4: with no driver registered, whatever the benchmarks, a run prints the
no-drivers diagnostic and does nothing else (no `Run..`, no trial line, no
invocation, the world untouched); with a driver and no benchmark it prints the
no-benchmarks diagnostic and does nothing else. -/
theorem C4_empty_registry (rt : Externals σ) (bs : BenchmarkSuite σ) (s : σ) :
    (bs.drivers = [] →
        bs.Run rt s
          = ([Event.println
                [Operand.str "No drivers registered to run benchmarks with!"]], s))
      ∧ (bs.drivers ≠ [] → bs.benchmarks = [] →
        bs.Run rt s
          = ([Event.println [Operand.str "No benchmark functions registered!"]], s))
      ∧ (bs.drivers = [] ∨ bs.benchmarks = [] → calls (bs.Run rt s).1 = []) := by
  refine ⟨?_, ?_, ?_⟩
  · intro h
    simp [BenchmarkSuite.Run, h]
  · intro hd hb
    have h1 : ¬ bs.drivers.length < 1 := by
      have := List.length_pos.2 hd
      omega
    simp [BenchmarkSuite.Run, h1, hb]
  · intro h
    rw [calls_Run]
    rcases h with h | h
    · simp [matrix, h]
    · simp [matrix, h]

/-- C4 at a suite without drivers and at a suite without benchmarks. -/
theorem C4_empty_registry_witness :
    exNoDrivers.Run exRt 0
        = ([Event.println
              [Operand.str "No drivers registered to run benchmarks with!"]], 0)
      ∧ exNoBenchmarks.Run exRt 0
        = ([Event.println [Operand.str "No benchmark functions registered!"]], 0)
      ∧ calls (exNoDrivers.Run exRt 0).1 = [] :=
  ⟨(C4_empty_registry exRt exNoDrivers 0).1 rfl,
   (C4_empty_registry exRt exNoBenchmarks 0).2.1 (by decide) rfl,
   (C4_empty_registry exRt exNoDrivers 0).2.2 (Or.inl rfl)⟩

/-- C9: `AddBenchmark` cannot fail and checks nothing: for every name, every
integer `n` (zero and negative ones too) and every function, the benchmark list
after the call is the old list followed by the one entry `(name, n, bm)`, and
the driver list is unchanged. -/
theorem C9_addBenchmark_appends (bs : BenchmarkSuite σ) (name : String) (n : Int)
    (bm : BenchFn σ) :
    (bs.AddBenchmark name n bm).benchmarks
        = bs.benchmarks ++ [{ name := name, n := n, bm := bm }]
      ∧ (bs.AddBenchmark name n bm).drivers = bs.drivers
      ∧ (bs.AddBenchmark name n bm).benchmarks.length = bs.benchmarks.length + 1
      ∧ (bs.AddBenchmark name n bm).benchmarks.take bs.benchmarks.length
          = bs.benchmarks
      ∧ (bs.AddBenchmark name n bm).benchmarks[bs.benchmarks.length]?
          = some { name := name, n := n, bm := bm } := by
  refine ⟨rfl, rfl, ?_, ?_, ?_⟩
  · simp [BenchmarkSuite.AddBenchmark]
  · simp [BenchmarkSuite.AddBenchmark]
  · simp [BenchmarkSuite.AddBenchmark]

/-- C3: `AddDriver` returns an error exactly when `sql.Open` fails or the ping
of the opened connection fails; then the suite is the one before the call, so
that every later run is the run of the old suite; when it returns `nil` the
driver list is the old one followed by the one entry of the given name and the
opened connection, and the benchmark list is unchanged. -/
theorem C3_addDriver (rt : Externals σ) (bs : BenchmarkSuite σ)
    (name drv dsn : String) (s : σ) :
    ((bs.AddDriver rt name drv dsn s).1 ≠ none ↔
        ((∃ e, (rt.sqlOpen drv dsn s).1 = Except.error e) ∨
          ∃ db e, (rt.sqlOpen drv dsn s).1 = Except.ok db
            ∧ (rt.ping db (rt.sqlOpen drv dsn s).2).1 = some e))
      ∧ ((bs.AddDriver rt name drv dsn s).1 ≠ none →
          (bs.AddDriver rt name drv dsn s).2.1.drivers = bs.drivers
            ∧ (bs.AddDriver rt name drv dsn s).2.1.benchmarks = bs.benchmarks
            ∧ ∀ s', (bs.AddDriver rt name drv dsn s).2.1.Run rt s' = bs.Run rt s')
      ∧ ((bs.AddDriver rt name drv dsn s).1 = none →
          ∃ db, (rt.sqlOpen drv dsn s).1 = Except.ok db
            ∧ (bs.AddDriver rt name drv dsn s).2.1.drivers
                = bs.drivers ++ [{ name := name, db := db }]
            ∧ (bs.AddDriver rt name drv dsn s).2.1.benchmarks = bs.benchmarks) := by
  rcases hopen : rt.sqlOpen drv dsn s with ⟨r, s1⟩
  cases r with
  | error e => simp [BenchmarkSuite.AddDriver, hopen]
  | ok db =>
    rcases hping : rt.ping db s1 with ⟨e, s2⟩
    cases e with
    | none => simp [BenchmarkSuite.AddDriver, hopen, hping]
    | some e => simp [BenchmarkSuite.AddDriver, hopen, hping]

/-- C3 at a registration whose connection does not open, on the suite
`exSuite`. -/
theorem C3_addDriver_witness :
    (exSuite.AddDriver exRt "c" "mysql" "" 0).2.1.drivers = exSuite.drivers
      ∧ (exSuite.AddDriver exRt "c" "mysql" "" 0).2.1.benchmarks = exSuite.benchmarks
      ∧ ∀ s', (exSuite.AddDriver exRt "c" "mysql" "" 0).2.1.Run exRt s'
          = exSuite.Run exRt s' :=
  (C3_addDriver exRt exSuite "c" "mysql" "" 0).2.1
    (by simp [BenchmarkSuite.AddDriver, exRt])

/-- C8: `AddBenchmark name n bm` stores `n` unchanged, and `benchmark.run` on that
entry and a connection `db` collects garbage, reads the clock (`t0`), invokes
`bm` exactly once, on `db` and `n`, and reads the clock again (`t1`); it returns
the answer of that invocation as `Err`, `n` as `Queries` and `t1 - t0` as
`Duration` (kept within the `int64` range of a `time.Duration`, as
`time.Time.Sub` does, hence exactly `t1 - t0` whenever that fits, as it does for
any two readings that are non-negative `int64` counts of nanoseconds). Hence in a
run of the suite every trial, of benchmark number `i` against driver number `j`,
invokes the function of that benchmark on the connection of that driver and the
iteration count of that benchmark, and reports a result of that count. -/
theorem C8_benchmark_run (rt : Externals σ) (bs : BenchmarkSuite σ) (name : String)
    (n : Int) (bm : BenchFn σ) (db : DB) (s : σ) (t0 t1 : Time) (err : GoError)
    (w0 w1 w2 : σ) (h0 : rt.now (rt.gc s) = (t0, w0)) (h1 : bm db n w0 = (err, w1))
    (h2 : rt.now w1 = (t1, w2)) :
    (bs.AddBenchmark name n bm).benchmarks[bs.benchmarks.length]?
        = some { name := name, n := n, bm := bm }
      ∧ benchmark.run rt { name := name, n := n, bm := bm } db s
        = ({ Err := err,
             Queries := n,
             Duration :=
               if t1.nanos - t0.nanos < -9223372036854775808 then -9223372036854775808
               else if 9223372036854775807 < t1.nanos - t0.nanos then 9223372036854775807
               else t1.nanos - t0.nanos },
           [Event.gc, Event.now t0, Event.call bm db n err, Event.now t1],
           w2)
      ∧ (-9223372036854775808 ≤ t1.nanos - t0.nanos →
          t1.nanos - t0.nanos ≤ 9223372036854775807 →
          (benchmark.run rt { name := name, n := n, bm := bm } db s).1.Duration
            = t1.nanos - t0.nanos)
      ∧ (0 ≤ t0.nanos → t0.nanos ≤ 9223372036854775807 →
          0 ≤ t1.nanos → t1.nanos ≤ 9223372036854775807 →
          (benchmark.run rt { name := name, n := n, bm := bm } db s).1.Duration
            = t1.nanos - t0.nanos)
      ∧ calls (benchmark.run rt { name := name, n := n, bm := bm } db s).2.1
        = [(bm, db, n)]
      ∧ ∀ (s' : σ) (i j : Nat) (b : benchmark σ) (d : driver),
          (bs.AddBenchmark name n bm).benchmarks[i]? = some b →
          bs.drivers[j]? = some d →
          ∃ pre post u0 e u1,
            ((bs.AddBenchmark name n bm).Run rt s').1
                = pre ++ [Event.println [Operand.str d.name], Event.gc, Event.now u0,
                    Event.call b.bm d.db b.n e, Event.now u1,
                    Event.println (Run.report rt
                      { Err := e, Queries := b.n, Duration := Time.Sub u1 u0 })]
                  ++ post
            ∧ (calls pre).length = i * bs.drivers.length + j := by
  have hrun : benchmark.run rt { name := name, n := n, bm := bm } db s
      = ({ Err := err, Queries := n, Duration := Time.Sub t1 t0 },
         [Event.gc, Event.now t0, Event.call bm db n err, Event.now t1], w2) := by
    simp only [benchmark.run, h0, h1, h2]
  have hsub : Time.Sub t1 t0
      = if t1.nanos - t0.nanos < -9223372036854775808 then -9223372036854775808
        else if 9223372036854775807 < t1.nanos - t0.nanos then 9223372036854775807
        else t1.nanos - t0.nanos := by
    have hmin : minDuration = -9223372036854775808 := by decide
    have hmax : maxDuration = 9223372036854775807 := by decide
    unfold Time.Sub
    rw [hmin, hmax]
  refine ⟨?_, ?_, ?_, ?_, ?_, ?_⟩
  · simp [BenchmarkSuite.AddBenchmark]
  · rw [hrun, hsub]
  · intro hlo hhi
    rw [hrun]
    show Time.Sub t1 t0 = _
    rw [hsub, if_neg (by omega), if_neg (by omega)]
  · intro ha hb hc hd
    rw [hrun]
    show Time.Sub t1 t0 = _
    rw [hsub, if_neg (by omega), if_neg (by omega)]
  · rw [hrun]
    simp [calls, Event.callArgs, List.filterMap_cons]
  · intro s' i j b d hb hd
    have hdrv : (bs.AddBenchmark name n bm).drivers = bs.drivers := rfl
    have hj : j < bs.drivers.length := (List.getElem?_eq_some.1 hd).1
    have hi : i < (bs.AddBenchmark name n bm).benchmarks.length :=
      (List.getElem?_eq_some.1 hb).1
    have hN : 0 < bs.drivers.length := by omega
    obtain ⟨qs, hqs, hall, hrun'⟩ := run_eq rt (bs.AddBenchmark name n bm) s'
      (by rw [hdrv]; omega) (by omega)
    rw [hdrv] at hall
    have hlen : qs.length = (bs.AddBenchmark name n bm).benchmarks.length := by
      rw [← hqs, List.length_map]
    have hk : i * bs.drivers.length + j < bs.drivers.length * qs.length := by
      rw [hlen]
      calc i * bs.drivers.length + j
          < i * bs.drivers.length + bs.drivers.length := by omega
        _ = bs.drivers.length * (i + 1) := by ring
        _ ≤ bs.drivers.length * (bs.AddBenchmark name n bm).benchmarks.length :=
            Nat.mul_le_mul_left _ hi
    have hdiv : (i * bs.drivers.length + j) / bs.drivers.length = i := by
      rw [Nat.mul_comm, Nat.mul_add_div hN, Nat.div_eq_of_lt hj, Nat.add_zero]
    have hmod : (i * bs.drivers.length + j) % bs.drivers.length = j := by
      rw [Nat.mul_comm, Nat.mul_add_mod, Nat.mod_eq_of_lt hj]
    obtain ⟨q, p, pre, post, hq, hp, hsplit, hcalls⟩ :=
      trial_place rt bs.drivers qs hall _ hk
    rw [hdiv] at hq
    rw [hmod] at hp
    have hqmem : q ∈ qs := List.getElem?_mem hq
    have hbq : b = q.1 := by
      have h : (qs.map Prod.fst)[i]? = some q.1 := by
        rw [List.getElem?_map, hq]; rfl
      rw [hqs, hb] at h
      exact Option.some.inj h
    have hdp : d = p.1 := by
      have h : (q.2.map Prod.fst)[j]? = some p.1 := by
        rw [List.getElem?_map, hp]; rfl
      rw [hall q hqmem, hd] at h
      exact Option.some.inj h
    refine ⟨pre, post, p.2.start, p.2.err, p.2.stop, ?_, hcalls⟩
    rw [hrun', hsplit, hbq, hdp]
    rfl

/-- C8 at the benchmark `count` of 10 iterations on the connection 2 of the world
`exRt`: the clock reads 0, the function takes 10 ticks and answers `nil`, the
clock reads 11, and the duration is `11 - 0`. -/
theorem C8_benchmark_run_witness :
    (benchmark.run exRt { name := "count", n := 10, bm := exBm } ⟨2⟩ 0).1.Duration
      = (11 : Int) - 0 :=
  (C8_benchmark_run exRt exSuite "count" 10 exBm ⟨2⟩ 0 ⟨0⟩ ⟨11⟩ none 1 11 12
    rfl rfl rfl).2.2.1 (by decide) (by decide)

/-- C5: a run of a suite of at least one driver and one benchmark consists of the
line `Run..` and of the sections of the benchmarks, a trial being the name line,
the collection, a reading of the clock, the invocation, a reading of the clock
and exactly one result line; that line is the message of the error alone when
the trial has an error, and the duration, the separator and the queries per
second when it has none. -/
theorem C5_one_report_per_trial (rt : Externals σ) (bs : BenchmarkSuite σ) (s : σ)
    (hd : 1 ≤ bs.drivers.length) (hb : 1 ≤ bs.benchmarks.length) :
    (∃ qs : List (benchmark σ × List (driver × Obs)),
        qs.map Prod.fst = bs.benchmarks
        ∧ (∀ q ∈ qs, q.2.map Prod.fst = bs.drivers)
        ∧ (bs.Run rt s).1
          = Event.println [Operand.str "Run.."] :: qs.flatMap (fun q =>
              Event.println
                  [Operand.str q.1.name, Operand.int q.1.n, Operand.str "iterations"]
                :: q.2.flatMap (fun p =>
                    [Event.println [Operand.str p.1.name], Event.gc,
                     Event.now p.2.start,
                     Event.call q.1.bm p.1.db q.1.n p.2.err,
                     Event.now p.2.stop,
                     Event.println (Run.report rt
                       { Err := p.2.err, Queries := q.1.n,
                         Duration := Time.Sub p.2.stop p.2.start })])
                ++ [Event.println []]))
      ∧ ∀ res : Result,
          (∀ msg, res.Err = some msg → Run.report rt res = [Operand.str msg])
          ∧ (res.Err = none →
              Run.report rt res
                = [Operand.str (rt.durationString res.Duration), Operand.str "   ",
                   Operand.float res.QueriesPerSecond]) := by
  refine ⟨?_, ?_⟩
  · obtain ⟨qs, hqs, hall, hrun⟩ := run_eq rt bs s hd hb
    exact ⟨qs, hqs, hall, hrun⟩
  · intro res
    refine ⟨?_, ?_⟩
    · intro msg h
      simp [Run.report, h]
    · intro h
      simp [Run.report, h]

/-- C5 at the suite `exSuite`. -/
theorem C5_one_report_per_trial_witness :
    (∃ qs : List (benchmark Nat × List (driver × Obs)),
        qs.map Prod.fst = exSuite.benchmarks
        ∧ (∀ q ∈ qs, q.2.map Prod.fst = exSuite.drivers)
        ∧ (exSuite.Run exRt 0).1
          = Event.println [Operand.str "Run.."] :: qs.flatMap (fun q =>
              Event.println
                  [Operand.str q.1.name, Operand.int q.1.n, Operand.str "iterations"]
                :: q.2.flatMap (fun p =>
                    [Event.println [Operand.str p.1.name], Event.gc,
                     Event.now p.2.start,
                     Event.call q.1.bm p.1.db q.1.n p.2.err,
                     Event.now p.2.stop,
                     Event.println (Run.report exRt
                       { Err := p.2.err, Queries := q.1.n,
                         Duration := Time.Sub p.2.stop p.2.start })])
                ++ [Event.println []]))
      ∧ ∀ res : Result,
          (∀ msg, res.Err = some msg → Run.report exRt res = [Operand.str msg])
          ∧ (res.Err = none →
              Run.report exRt res
                = [Operand.str (exRt.durationString res.Duration), Operand.str "   ",
                   Operand.float res.QueriesPerSecond]) :=
  C5_one_report_per_trial exRt exSuite 0 (by decide) (by decide)

/-- C2: in a run of a suite of `N ≥ 1` drivers and `M ≥ 1` benchmarks every trial
of the matrix is executed and reported, whatever the benchmark functions answer
in this trial or in an earlier one: for each `k < N * M`, after exactly `k`
invocations the run prints the name of driver number `k % N`, invokes benchmark
number `k / N` on its connection and prints the result line of that invocation
(the message of the error, or the duration and the queries per second). -/
theorem C2_error_isolation (rt : Externals σ) (bs : BenchmarkSuite σ) (s : σ)
    (hd : 1 ≤ bs.drivers.length) (hb : 1 ≤ bs.benchmarks.length) :
    ∀ k, k < bs.drivers.length * bs.benchmarks.length →
      ∃ b d pre post t0 err t1,
        bs.benchmarks[k / bs.drivers.length]? = some b
        ∧ bs.drivers[k % bs.drivers.length]? = some d
        ∧ (bs.Run rt s).1
            = pre ++ [Event.println [Operand.str d.name], Event.gc, Event.now t0,
                Event.call b.bm d.db b.n err, Event.now t1,
                Event.println (Run.report rt
                  { Err := err, Queries := b.n, Duration := Time.Sub t1 t0 })]
              ++ post
        ∧ (calls pre).length = k := by
  intro k hk
  obtain ⟨qs, hqs, hall, hrun⟩ := run_eq rt bs s hd hb
  have hlen : qs.length = bs.benchmarks.length := by rw [← hqs, List.length_map]
  obtain ⟨q, p, pre, post, hq, hp, hsplit, hcalls⟩ :=
    trial_place rt bs.drivers qs hall k (by rw [hlen]; exact hk)
  have hqmem : q ∈ qs := List.getElem?_mem hq
  have hdrv : (q.2.map Prod.fst)[k % bs.drivers.length]? = some p.1 := by
    rw [List.getElem?_map, hp]; rfl
  refine ⟨q.1, p.1, pre, post, p.2.start, p.2.err, p.2.stop, ?_, ?_, ?_, hcalls⟩
  · rw [← hqs, List.getElem?_map, hq]; rfl
  · rw [hall q hqmem] at hdrv; exact hdrv
  · rw [hrun, hsplit]; rfl

/-- C2 at the suite `exSuite`, whose first driver fails every trial: the second
trial, on the second driver, follows the failed first one. -/
theorem C2_error_isolation_witness :
    ∃ b d pre post t0 err t1,
      exSuite.benchmarks[1 / exSuite.drivers.length]? = some b
      ∧ exSuite.drivers[1 % exSuite.drivers.length]? = some d
      ∧ (exSuite.Run exRt 0).1
          = pre ++ [Event.println [Operand.str d.name], Event.gc, Event.now t0,
              Event.call b.bm d.db b.n err, Event.now t1,
              Event.println (Run.report exRt
                { Err := err, Queries := b.n, Duration := Time.Sub t1 t0 })]
            ++ post
      ∧ (calls pre).length = 1 :=
  C2_error_isolation exRt exSuite 0 (by decide) (by decide) 1 (by decide)

/-- C6: `QueriesPerSecond` is the binary64 quotient of `float64(Queries)` by
`Duration.Seconds()`; for a duration of a whole number `secs > 0` of seconds and
`|Queries| < 2 ^ 53` it is the exact quotient `Queries / secs` rounded once to
binary64; for `Queries = 1000` and a duration of two seconds it is exactly
`500.0`. -/
theorem C6_queries_per_second :
    (∀ res : Result,
        res.QueriesPerSecond
          = F64.div (F64.ofInt res.Queries) (Duration.Seconds res.Duration))
      ∧ (∀ (err : GoError) (q secs : Int), 0 < secs → secs * Second ≤ maxDuration →
          |q| < 2 ^ 53 →
          Result.QueriesPerSecond { Err := err, Queries := q, Duration := secs * Second }
            = F64.ofRat ((q : ℚ) / (secs : ℚ)))
      ∧ Result.QueriesPerSecond { Err := none, Queries := 1000, Duration := 2000000000 }
          = F64.fin false 500 := by
  have hgen : ∀ (err : GoError) (q secs : Int), 0 < secs → secs * Second ≤ maxDuration →
      |q| < 2 ^ 53 →
      Result.QueriesPerSecond { Err := err, Queries := q, Duration := secs * Second }
        = F64.ofRat ((q : ℚ) / (secs : ℚ)) := by
    intro err q secs hpos hmax hq
    have hsq : (0 : ℚ) < (secs : ℚ) := by exact_mod_cast hpos
    have hdec : decide ((q : ℚ) / (secs : ℚ) < 0) = decide (q < 0) := by
      have hiff : (q : ℚ) / (secs : ℚ) < 0 ↔ q < 0 := by
        rw [div_neg_iff]
        constructor
        · rintro (⟨_, h⟩ | ⟨h, _⟩)
          · exact absurd h (not_lt.2 (le_of_lt hsq))
          · exact_mod_cast h
        · intro h
          exact Or.inr ⟨by exact_mod_cast h, hsq⟩
      exact decide_eq_decide.2 hiff
    unfold Result.QueriesPerSecond
    simp only [Seconds_whole secs hpos hmax]
    rw [F64.ofInt_of_abs_lt q hq, F64.div_fin_fin, if_neg (ne_of_gt hsq)]
    unfold F64.ofRat
    rw [hdec, abs_div, abs_of_pos hsq, Bool.xor_false]
  refine ⟨fun _ => rfl, hgen, ?_⟩
  have h := hgen none 1000 2 (by norm_num) (by decide) (by norm_num)
  have h500 : F64.ofRat (((1000 : Int) : ℚ) / ((2 : Int) : ℚ)) = F64.fin false 500 := by
    have h' := F64.ofRat_natCast 500 (by norm_num)
    have he : ((1000 : Int) : ℚ) / ((2 : Int) : ℚ) = ((500 : ℕ) : ℚ) := by norm_num
    rw [he, h']
    norm_num
  rw [← h500, ← h]
  rfl

/-- C6 at a thousand queries in two seconds. -/
theorem C6_queries_per_second_witness :
    Result.QueriesPerSecond { Err := none, Queries := 1000, Duration := 2 * Second }
      = F64.ofRat (((1000 : Int) : ℚ) / ((2 : Int) : ℚ)) :=
  C6_queries_per_second.2.1 none 1000 2 (by decide) (by decide) (by decide)

/-- C7, as the code has it: `QueriesPerSecond` has no guard for a duration of
zero. It divides by `+0` as IEEE-754 does: the division does not fault and
yields `+Inf` when `Queries > 0`, a NaN when `Queries = 0` and `-Inf` when
`Queries < 0`; on the success path `Run` prints that value after the duration. -/
theorem C7_zero_duration_unguarded (rt : Externals σ) (err : GoError) (q : Int) :
    Duration.Seconds 0 = F64.fin false 0
      ∧ Result.QueriesPerSecond { Err := err, Queries := q, Duration := 0 }
        = (if 0 < q then F64.inf false else if q = 0 then F64.nan else F64.inf true)
      ∧ Run.report rt { Err := none, Queries := q, Duration := 0 }
        = [Operand.str (rt.durationString 0), Operand.str "   ",
           Operand.float
             (if 0 < q then F64.inf false else if q = 0 then F64.nan
              else F64.inf true)] := by
  refine ⟨Seconds_zero, qps_zero_duration err q, ?_⟩
  rw [← qps_zero_duration none q]
  rfl

/-- C7 as stated fails: with a duration of zero and no error, one query gives
`+Inf`, no query gives a NaN and minus one query gives `-Inf`, so that no single
value is returned for every duration of zero. -/
theorem C7_no_single_sentinel :
    Result.QueriesPerSecond { Err := none, Queries := 1, Duration := 0 } = F64.inf false
      ∧ Result.QueriesPerSecond { Err := none, Queries := 0, Duration := 0 } = F64.nan
      ∧ Result.QueriesPerSecond { Err := none, Queries := -1, Duration := 0 }
          = F64.inf true
      ∧ ¬ ∃ v : F64, ∀ q : Int,
          Result.QueriesPerSecond { Err := none, Queries := q, Duration := 0 } = v := by
  have h1 := qps_zero_duration none 1
  have h0 := qps_zero_duration none 0
  have hm := qps_zero_duration none (-1)
  rw [if_pos (by decide)] at h1
  rw [if_neg (by decide), if_pos rfl] at h0
  rw [if_neg (by decide), if_neg (by decide)] at hm
  refine ⟨h1, h0, hm, ?_⟩
  rintro ⟨v, hv⟩
  have e1 := hv 1
  have e0 := hv 0
  rw [h1] at e1
  rw [h0] at e0
  rw [← e1] at e0
  exact F64.noConfusion e0

end SqlBenchmark
